import Mathlib

/-!
Verification of the ChameleonDB core against its specification.

This file shallowly embeds the Go source of the repository:
  * `pkg/engine/validation.go`  — the mutation validator and safety guards;
  * the mutation builders (Insert/Update/Delete) and their SQL rendering;
  * `pkg/mutation/factory.go`   — the query executor (`Execute`,
    `extractIDs`, `uuidToString`, `replacePlaceholder`);
  * the schema merger (`SimpleMerger.Merge`) with its line-provenance map.

Modelling conventions:
  * Go `string` values that we need to reason about line-by-line are
    embedded as `List Char`; other strings stay `String`.
  * Go `map[string]T` is embedded as an association list `List (String × T)`
    with first-match lookup; insertion overwrites an existing key.  Go map
    iteration order is unspecified; the embedding iterates in list order,
    and theorems are stated so that they do not depend on a particular
    order unless noted.
  * Go `interface\x7b\x7d` values are embedded as the closed `GoValue` type
    covering the dynamic kinds the embedded code inspects (nil, string,
    int, bool, `[]byte`, `[16]byte`).  Floating point values are outside
    the embedding.
  * fallible Go functions returning `(T, error)` become `Except` / `Option`.
-/

namespace Chameleon

/-- Dynamic (Go `interface\x7b\x7d`) values as the embedded code inspects them:
nil, `string`, `int`-like, `bool`, `[]byte` and the fixed-width
`[16]byte` PostgreSQL UUID representation (bytes as `Nat` codes). -/
inductive GoValue where
  | vnil
  | vstr (s : String)
  | vint (n : Int)
  | vbool (b : Bool)
  | vbytes (bs : List Nat)
  | vuuid16 (bs : List Nat)
  deriving DecidableEq, Repr

/-- Go `fmt` `%T` verb on the embedded dynamic kinds (used in
`TypeMismatchError.ReceivedType`). -/
def goTypeName : GoValue → String
  | .vnil => "<nil>"
  | .vstr _ => "string"
  | .vint _ => "int"
  | .vbool _ => "bool"
  | .vbytes _ => "[]uint8"
  | .vuuid16 _ => "[16]uint8"

/-- Go `fmt` `%v` verb on the embedded dynamic kinds. -/
def goFormatV : GoValue → String
  | .vnil => "<nil>"
  | .vstr s => s
  | .vint n => toString n
  | .vbool true => "true"
  | .vbool false => "false"
  | .vbytes bs => "[" ++ String.intercalate " " (bs.map toString) ++ "]"
  | .vuuid16 bs => "[" ++ String.intercalate " " (bs.map toString) ++ "]"

/-- ASCII model of Go `strings.ToLower` on one character. -/
def asciiLowerChar (c : Char) : Char :=
  if 'A' ≤ c ∧ c ≤ 'Z' then Char.ofNat (c.toNat + 32) else c

/-- ASCII model of Go `strings.ToLower` (entity and field names in this
code base are ASCII identifiers). -/
def asciiToLower (s : String) : String :=
  String.mk (s.data.map asciiLowerChar)

/-- `needle` occurs as a contiguous sublist of `hay` (model of Go
`strings.Contains` at the character level). -/
def containsSub (hay needle : List Char) : Bool :=
  (List.range (hay.length + 1)).any fun i => needle.isPrefixOf (hay.drop i)

/-- Association-list lookup, the embedding of Go map indexing. -/
def alookup {α : Type} (m : List (String × α)) (k : String) : Option α :=
  match m with
  | [] => none
  | (k', v) :: rest => if k' = k then some v else alookup rest k

/-- Association-list insertion with overwrite, the embedding of Go map
assignment `m[k] = v`. -/
def aset {α : Type} (m : List (String × α)) (k : String) (v : α) :
    List (String × α) :=
  match m with
  | [] => [(k, v)]
  | (k', v') :: rest =>
      if k' = k then (k', v) :: rest else (k', v') :: aset rest k v

/-- First `some` of a list of options (the first error a Go loop would
return). -/
def firstSome {α : Type} : List (Option α) → Option α
  | [] => none
  | some a :: _ => some a
  | none :: rest => firstSome rest

-- ============================================================
-- SCHEMA MODEL (engine package: Schema / Entity / Field)
-- ============================================================

/-- `engine.FieldType` as the validator and the tests use it: a struct with
a `Kind` string ("UUID", "String", "Int", "Decimal", "Bool", "Timestamp").
The struct declaration itself is in a source file missing from the corpus;
its shape is fixed by `validation.go` (`field.Type.Kind`) and the builder
tests (`engine.FieldType\x7bKind: "UUID"\x7d`). -/
structure FieldType where
  Kind : String
  deriving DecidableEq, Repr

/-- `engine.Field`. `Default` is an optional dynamic value. -/
structure Field where
  Name : String
  Type' : FieldType
  Nullable : Bool
  Unique : Bool
  PrimaryKey : Bool
  Default : Option GoValue
  deriving DecidableEq, Repr

/-- `engine.Entity`: name and field map (relations are not needed by any
claim and are omitted). -/
structure Entity where
  Name : String
  Fields : List (String × Field)
  deriving DecidableEq, Repr

/-- `engine.Schema`: the entity collection, embedded as a list (the version
of the engine the validator and the builder tests compile against holds
`Entities []*Entity`, looked up by the linear scan in `GetEntity`). -/
structure Schema where
  Entities : List Entity
  deriving DecidableEq, Repr

/-- `Schema.GetEntity`: first entity whose `Name` matches, `nil` (here
`none`) when absent. -/
def Schema.GetEntity (s : Schema) (name : String) : Option Entity :=
  s.Entities.find? fun e => e.Name = name

-- ============================================================
-- ERROR TAXONOMY (engine package error values, as constructed
-- by validation.go)
-- ============================================================

/-- The engine-package validation errors, with exactly the fields
`validation.go` fills at each construction site. -/
inductive EngineError where
  | unknownEntity (entity : String) (available : List String)
  | unknownField (entity field : String) (available : List String)
  | notNull (field suggestion : String)
  | safety (operation message suggestion : String)
  | constraint (ctype field suggestion : String)
  | fieldFormat (field format value suggestion : String)
  | typeMismatch (field expectedType receivedType : String)
      (value : GoValue) (suggestion : String)
  deriving DecidableEq, Repr

-- ============================================================
-- VALIDATOR (pkg/engine/validation.go)
-- ============================================================

/-- Hexadecimal digit (either case), as Go `encoding/hex` style parsing
accepts inside a UUID. -/
def isHexDigit (c : Char) : Bool :=
  c.isDigit || ('a' ≤ c ∧ c ≤ 'f') || ('A' ≤ c ∧ c ≤ 'F')

/-- The canonical 36-character `xxxxxxxx-xxxx-xxxx-xxxx-xxxxxxxxxxxx`
form: hyphens at offsets 8, 13, 18, 23, hex digits elsewhere. -/
def isCanonicalUUID36 (cs : List Char) : Bool :=
  cs.length = 36 &&
    (List.range 36).all fun i =>
      if i = 8 ∨ i = 13 ∨ i = 18 ∨ i = 23 then cs.getD i ' ' = '-'
      else isHexDigit (cs.getD i ' ')

/-- Model of the external `github.com/google/uuid` dependency's `Parse`
succeeding (`isValidUUID` in validation.go): the canonical hyphenated
form, the same with a case-insensitive `urn:uuid:` lead, the same in
curly braces, or 32 plain hex digits. -/
def isValidUUID (s : String) : Bool :=
  let cs := s.data
  if cs.length = 36 then isCanonicalUUID36 cs
  else if cs.length = 45 then
    (cs.take 9).map asciiLowerChar = "urn:uuid:".data &&
      isCanonicalUUID36 (cs.drop 9)
  else if cs.length = 38 then
    cs.getD 0 ' ' = '{' && cs.getD 37 ' ' = '}' &&
      isCanonicalUUID36 ((cs.drop 1).take 36)
  else if cs.length = 32 then cs.all isHexDigit
  else false

/-- RE2 whitespace class `\s` (as used by `isValidEmail`'s pattern). -/
def isRe2Space (c : Char) : Bool :=
  c = '\t' || c = '\n' || c = '\x0c' || c = '\r' || c = ' '

/-- A nonempty run of characters that are neither `@` nor whitespace
(`[^@\s]+`). -/
def emailSeg (cs : List Char) : Bool :=
  cs ≠ [] && cs.all fun c => ¬ (c = '@' || isRe2Space c)

/-- Model of `isValidEmail` (validation.go): the anchored RE2 pattern
`^[^@\s]+@[^@\s]+\.[^@\s]+$` matches the string, i.e. it decomposes as
`A @ B . C` with `A`, `B`, `C` nonempty and free of `@` and whitespace. -/
def isValidEmail (s : String) : Bool :=
  let cs := s.data
  (List.range cs.length).any fun i =>
    cs.getD i ' ' = '@' &&
      emailSeg (cs.take i) &&
      (let rest := cs.drop (i + 1)
       (List.range rest.length).any fun j =>
         rest.getD j ' ' = '.' && emailSeg (rest.take j) &&
           emailSeg (rest.drop (j + 1)))

/-- `Validator.validateFieldType`: nil is rejected on non-nullable fields;
`UUID`-kind fields need a parseable UUID string, `String`-kind fields need
a string; every other declared kind falls through the `switch` with no
check. -/
def validateFieldType (field : Field) (fieldName : String) (value : GoValue) :
    Option EngineError :=
  match value with
  | .vnil =>
      if field.Nullable then none
      else some (.notNull fieldName "This field cannot be null")
  | v =>
      if field.Type'.Kind = "UUID" then
        match v with
        | .vstr s =>
            if isValidUUID s then none
            else some (.fieldFormat fieldName "UUID" s "Use uuid.New().String()")
        | _ =>
            some (.fieldFormat fieldName "UUID" (goFormatV v)
              "Use uuid.New().String()")
      else if field.Type'.Kind = "String" then
        match v with
        | .vstr _ => none
        | _ =>
            some (.typeMismatch fieldName "string" (goTypeName v) v
              "Pass a string")
      else none

/-- `Validator.validateFieldFormat`: only non-empty string values are
inspected; a field whose lowercased name contains "email" must look like
an email address. -/
def validateFieldFormat (fieldName : String) (value : GoValue) :
    Option EngineError :=
  match value with
  | .vstr s =>
      if s = "" then none
      else if containsSub (asciiToLower fieldName).data "email".data then
        if isValidEmail s then none
        else some (.fieldFormat fieldName "email" s "Use a valid email address")
      else none
  | _ => none

/-- Field names of an entity in map order (`getAvailableFields`). -/
def getAvailableFields (ent : Entity) : List String :=
  ent.Fields.map Prod.fst

/-- Entity names of a schema (`getAvailableEntities`). -/
def getAvailableEntities (s : Schema) : List String :=
  s.Entities.map Entity.Name

/-- `Validator.validateInsertField`: unknown field, then type check, then
format check, then a (dead, type check already covers it) nil check. -/
def validateInsertField (ent : Entity) (fieldName : String) (value : GoValue) :
    Option EngineError :=
  match alookup ent.Fields fieldName with
  | none => some (.unknownField ent.Name fieldName (getAvailableFields ent))
  | some field =>
      match validateFieldType field fieldName value with
      | some e => some e
      | none =>
          match validateFieldFormat fieldName value with
          | some e => some e
          | none =>
              if value = .vnil ∧ ¬ field.Nullable then
                some (.notNull fieldName "Provide a value for this field")
              else none

/-- `Validator.validateRequiredFields`: every non-nullable field with no
default that is not the primary key must be among the provided fields. -/
def validateRequiredFields (ent : Entity) (provided : List (String × GoValue)) :
    Option EngineError :=
  firstSome <| ent.Fields.map fun fv =>
    let field := fv.2
    if field.Nullable || field.Default.isSome || field.PrimaryKey then none
    else if (alookup provided field.Name).isSome then none
    else some (.notNull field.Name "This field is required")

/-- `Validator.ValidateInsertInput`. -/
def ValidateInsertInput (s : Schema) (entity : String)
    (fields : List (String × GoValue)) : Option EngineError :=
  match s.GetEntity entity with
  | none => some (.unknownEntity entity (getAvailableEntities s))
  | some ent =>
      match firstSome (fields.map fun nv => validateInsertField ent nv.1 nv.2) with
      | some e => some e
      | none => validateRequiredFields ent fields

/-- `Validator.ValidateUpdateInput`.  Note: the function has no force-all
parameter; an empty filter map is rejected unconditionally. -/
def ValidateUpdateInput (s : Schema) (entity : String)
    (filters updates : List (String × GoValue)) : Option EngineError :=
  match s.GetEntity entity with
  | none => some (.unknownEntity entity (getAvailableEntities s))
  | some ent =>
      if filters.length = 0 then
        some (.safety "update_without_filter" "UPDATE requires a WHERE clause"
          "Use Filter() or ForceUpdateAll()")
      else
        match firstSome (filters.map fun nv =>
            if (alookup ent.Fields nv.1).isSome then none
            else some (EngineError.unknownField ent.Name nv.1
              (getAvailableFields ent))) with
        | some e => some e
        | none =>
            firstSome <| updates.map fun nv =>
              match alookup ent.Fields nv.1 with
              | none =>
                  some (.unknownField ent.Name nv.1 (getAvailableFields ent))
              | some field =>
                  if field.PrimaryKey then
                    some (.constraint "primary_key" nv.1
                      "Primary keys cannot be updated")
                  else validateFieldType field nv.1 nv.2

/-- `Validator.ValidateDeleteInput`: the only checks are that the entity
exists and that either a filter is present or `forceDeleteAll` is set. -/
def ValidateDeleteInput (s : Schema) (entity : String)
    (filters : List (String × GoValue)) (forceDeleteAll : Bool) :
    Option EngineError :=
  match s.GetEntity entity with
  | none => some (.unknownEntity entity (getAvailableEntities s))
  | some _ =>
      if filters.length = 0 ∧ ¬ forceDeleteAll then
        some (.safety "delete_without_filter" "DELETE without WHERE is blocked"
          "Use Filter() or ForceDeleteAll()")
      else none

-- ============================================================
-- MUTATION BUILDERS (pkg/mutation insert/update/delete builders)
-- ============================================================

/-- `engine.MutationType`. -/
inductive MutationType where
  | insert
  | update
  | delete
  deriving DecidableEq, Repr

/-- `engine.Mutation` as the builders construct it. -/
structure Mutation where
  Type' : MutationType
  Entity : String
  HasFilter : Bool
  deriving DecidableEq, Repr

/-- `formatStringSplit` (mutation builders' utils): split on the separator
character, dropping empty segments. -/
def formatStringSplit (s : List Char) (sep : Char) : List (List Char) :=
  let step := fun (acc : List (List Char) × List Char) (c : Char) =>
    if c = sep then
      if acc.2 ≠ [] then (acc.1 ++ [acc.2], []) else (acc.1, [])
    else (acc.1, acc.2 ++ [c])
  let fin := s.foldl step ([], [])
  if fin.2 ≠ [] then fin.1 ++ [fin.2] else fin.1

/-- Go `strings.Split` on a one-character separator (keeps empty
segments; always returns at least one segment). -/
def goSplitChar (s : List Char) (sep : Char) : List (List Char) :=
  match s with
  | [] => [[]]
  | c :: rest =>
      if c = sep then [] :: goSplitChar rest sep
      else
        match goSplitChar rest sep with
        | [] => [[c]]
        | h :: t => (c :: h) :: t

/-- `parseFilters` (shared shape of `UpdateBuilder.parseFilters` and
`DeleteBuilder.parseFilters`): each stored key `field:op` is split and the
field part keyed to the value in a fresh map. -/
def parseFilters (filters : List (String × GoValue)) : List (String × GoValue) :=
  filters.foldl
    (fun acc kv =>
      match formatStringSplit kv.1.data ':' with
      | [] => acc
      | p :: _ => aset acc (String.mk p) kv.2)
    []

/-- `formatList` (utils): comma-space join. -/
def formatList (items : List String) : String :=
  String.intercalate ", " items

/-- Positional SQL parameter `$i`. -/
def dollar (i : Nat) : String := "$" ++ toString i

/-- `InsertBuilder.generateInsertSQL`: the entity name is interpolated
verbatim into the quoted table identifier. -/
def generateInsertSQL (entity : String) (values : List (String × GoValue)) :
    String :=
  let fields := values.map fun fv => "\"" ++ fv.1 ++ "\""
  let placeholders := (List.range values.length).map fun i => dollar (i + 1)
  "INSERT INTO \"" ++ entity ++ "\" (" ++ formatList fields ++ ") VALUES (" ++
    formatList placeholders ++ ") RETURNING *"

/-- `UpdateBuilder.generateUpdateSQL`: `SET` clauses from the update map,
filter clauses from the raw `field:op` keys (field part before the first
`:`), the table name lowercased. -/
def generateUpdateSQL (entity : String) (updates filters : List (String × GoValue)) :
    String :=
  let setClauses := (updates.enumFrom 1).map fun ifv =>
    "\"" ++ ifv.2.1 ++ "\"=" ++ dollar ifv.1
  let filterClauses := (filters.enumFrom (updates.length + 1)).map fun ifv =>
    "\"" ++ String.mk ((goSplitChar ifv.2.1.data ':').headD []) ++ "\"=" ++
      dollar ifv.1
  "UPDATE \"" ++ asciiToLower entity ++ "\" SET " ++
    String.intercalate ", " setClauses ++ " WHERE " ++
    String.intercalate " AND " filterClauses ++ " RETURNING *"

/-- `DeleteBuilder.generateDeleteSQL`: filter clauses as in update, the
table name lowercased, no `RETURNING`. -/
def generateDeleteSQL (entity : String) (filters : List (String × GoValue)) :
    String :=
  let filterClauses := (filters.enumFrom 1).map fun ifv =>
    "\"" ++ String.mk ((goSplitChar ifv.2.1.data ':').headD []) ++ "\"=" ++
      dollar ifv.1
  "DELETE FROM \"" ++ asciiToLower entity ++ "\" WHERE " ++
    String.intercalate " AND " filterClauses

/-- `InsertBuilder` state: schema, entity, accumulated `Set` values. -/
structure InsertBuilder where
  schema : Schema
  entity : String
  values : List (String × GoValue)
  deriving Repr

/-- `NewInsertBuilder`. -/
def NewInsertBuilder (schema : Schema) (entity : String) : InsertBuilder :=
  ⟨schema, entity, []⟩

/-- `InsertBuilder.Set` (map overwrite: last write per key wins). -/
def InsertBuilder.Set (ib : InsertBuilder) (field : String) (value : GoValue) :
    InsertBuilder :=
  { ib with values := aset ib.values field value }

/-- `InsertBuilder.Build`: validate, then render SQL.  The Go method
stores the SQL in the builder and returns the `Mutation`; the embedding
returns both. -/
def InsertBuilder.Build (ib : InsertBuilder) :
    Except EngineError (Mutation × String) :=
  match ValidateInsertInput ib.schema ib.entity ib.values with
  | some e => .error e
  | none =>
      .ok (⟨MutationType.insert, ib.entity, false⟩,
        generateInsertSQL ib.entity ib.values)

/-- `UpdateBuilder` state. -/
structure UpdateBuilder where
  schema : Schema
  entity : String
  filters : List (String × GoValue)
  updates : List (String × GoValue)
  forceAll : Bool
  deriving Repr

/-- `NewUpdateBuilder`. -/
def NewUpdateBuilder (schema : Schema) (entity : String) : UpdateBuilder :=
  ⟨schema, entity, [], [], false⟩

/-- `UpdateBuilder.Filter`: stored under the key `field:op`. -/
def UpdateBuilder.Filter (ub : UpdateBuilder) (field op : String) (value : GoValue) :
    UpdateBuilder :=
  { ub with filters := aset ub.filters (field ++ ":" ++ op) value }

/-- `UpdateBuilder.Set`. -/
def UpdateBuilder.Set (ub : UpdateBuilder) (field : String) (value : GoValue) :
    UpdateBuilder :=
  { ub with updates := aset ub.updates field value }

/-- `UpdateBuilder.ForceUpdateAll`: sets the `forceAll` flag (which,
notably, nothing else reads). -/
def UpdateBuilder.ForceUpdateAll (ub : UpdateBuilder) : UpdateBuilder :=
  { ub with forceAll := true }

/-- `UpdateBuilder.Build`: validates with `ValidateUpdateInput` — passing
the parsed filters and the updates but not `forceAll` — then renders SQL. -/
def UpdateBuilder.Build (ub : UpdateBuilder) :
    Except EngineError (Mutation × String) :=
  match ValidateUpdateInput ub.schema ub.entity (parseFilters ub.filters)
      ub.updates with
  | some e => .error e
  | none =>
      .ok (⟨MutationType.update, ub.entity, ub.filters.length > 0⟩,
        generateUpdateSQL ub.entity ub.updates ub.filters)

/-- `DeleteBuilder` state. -/
structure DeleteBuilder where
  schema : Schema
  entity : String
  filters : List (String × GoValue)
  forceDeleteAll : Bool
  deriving Repr

/-- `NewDeleteBuilder`. -/
def NewDeleteBuilder (schema : Schema) (entity : String) : DeleteBuilder :=
  ⟨schema, entity, [], false⟩

/-- `DeleteBuilder.Filter`: stored under the key `field:op`. -/
def DeleteBuilder.Filter (db : DeleteBuilder) (field op : String) (value : GoValue) :
    DeleteBuilder :=
  { db with filters := aset db.filters (field ++ ":" ++ op) value }

/-- `DeleteBuilder.ForceDeleteAll`. -/
def DeleteBuilder.ForceDeleteAll (db : DeleteBuilder) : DeleteBuilder :=
  { db with forceDeleteAll := true }

/-- `DeleteBuilder.Build`: validates with `ValidateDeleteInput` (this one
does receive the force flag), then renders SQL. -/
def DeleteBuilder.Build (db : DeleteBuilder) :
    Except EngineError (Mutation × String) :=
  match ValidateDeleteInput db.schema db.entity (parseFilters db.filters)
      db.forceDeleteAll with
  | some e => .error e
  | none =>
      .ok (⟨MutationType.delete, db.entity, db.filters.length > 0⟩,
        generateDeleteSQL db.entity db.filters)

-- ============================================================
-- QUERY EXECUTOR (pkg/mutation/factory.go: Executor.Execute,
-- extractIDs, uuidToString, replacePlaceholder)
-- ============================================================

/-- A database row (`Row` is `map[string]interface\x7b\x7d`; its type
declaration lives in a source file missing from the corpus, its shape is
fixed by `scanRows`). -/
abbrev Row := List (String × GoValue)

/-- `engine.QueryResult` as `Execute` constructs it: entity name, root
rows, relation-name-keyed eager rows. -/
structure QueryResult where
  Entity : String
  Rows : List Row
  Relations : List (String × List Row)
  deriving DecidableEq, Repr

/-- `engine.GeneratedSQL`: the main query and the ordered
`[relation, SQL-template]` pairs (`[][]string` in Go, indexed `[0]`/`[1]`). -/
structure GeneratedSQL where
  MainQuery : String
  EagerQueries : List (String × String)
  deriving DecidableEq, Repr

/-- One lowercase hex digit. -/
def hexDigit (n : Nat) : Char :=
  if n < 10 then Char.ofNat ('0'.toNat + n)
  else Char.ofNat ('a'.toNat + (n - 10))

/-- Go `%x` of one byte: exactly two lowercase hex digits. -/
def byteHex (n : Nat) : String :=
  String.mk [hexDigit (n / 16 % 16), hexDigit (n % 16)]

/-- Go `%x` of a byte slice. -/
def hexOfBytes (bs : List Nat) : String :=
  String.join (bs.map byteHex)

/-- `uuidToString`: `%x-%x-%x-%x-%x` over the 4-2-2-2-6 byte groups of a
`[16]byte` value. -/
def uuidToString (bs : List Nat) : String :=
  hexOfBytes (bs.take 4) ++ "-" ++
    hexOfBytes ((bs.drop 4).take 2) ++ "-" ++
    hexOfBytes ((bs.drop 6).take 2) ++ "-" ++
    hexOfBytes ((bs.drop 8).take 2) ++ "-" ++
    hexOfBytes ((bs.drop 10).take 6)

/-- The per-value conversion inside `extractIDs`' type switch: `[]byte`
decoded to a string, `[16]byte` rendered through `uuidToString`, strings
kept, anything else passed through unchanged. -/
def normalizeId : GoValue → GoValue
  | .vbytes bs => .vstr (String.mk (bs.map Char.ofNat))
  | .vuuid16 bs => .vstr (uuidToString bs)
  | .vstr s => .vstr s
  | v => v

/-- `extractIDs`: the value under `field` of each row that has one,
converted by the type switch. -/
def extractIDs (rows : List Row) (field : String) : List GoValue :=
  rows.foldl
    (fun ids row =>
      match alookup row field with
      | some id => ids ++ [normalizeId id]
      | none => ids)
    []

/-- Escape single quotes by doubling them (`strings.ReplaceAll(v, "\'", "\'\'")`). -/
def escapeQuotes (s : String) : String :=
  String.mk (s.data.foldr
    (fun c acc => if c = '\'' then '\'' :: '\'' :: acc else c :: acc) [])

/-- The per-id placeholder element of `replacePlaceholder`: strings are
escaped and quoted, integer kinds printed with `%d`, everything else
quoted `%v` (the float cases are outside the embedding). -/
def placeholderElem : GoValue → String
  | .vstr v => "\'" ++ escapeQuotes v ++ "\'"
  | .vint n => toString n
  | v => "\'" ++ goFormatV v ++ "\'"

/-- Go `strings.Replace(s, old, new, 1)`: replace the first occurrence of
`old` (nonempty) in `s` with `new`. -/
def replaceFirst (s old new : List Char) : List Char :=
  match s with
  | [] => []
  | c :: rest =>
      if old.isPrefixOf (c :: rest) then new ++ (c :: rest).drop old.length
      else c :: replaceFirst rest old new

/-- String version of `replaceFirst`. -/
def goReplaceFirst (s old new : String) : String :=
  String.mk (replaceFirst s.data old.data new.data)

/-- `replacePlaceholder`: an empty id list substitutes the literal `NULL`
for `$PARENT_IDS`; otherwise the comma-joined elements.  (The Go function
also returns an `error` that is always nil.) -/
def replacePlaceholder (sql : String) (ids : List GoValue) : String :=
  if ids.length = 0 then goReplaceFirst sql "$PARENT_IDS" "NULL"
  else
    goReplaceFirst sql "$PARENT_IDS"
      (String.intercalate ", " (ids.map placeholderElem))

/-- The abstract database: one SQL round-trip to rows or an error.  This
stands for `executeQuery` (connection pool plus `scanRows`), the external
collaborator of the executor. -/
abbrev Database := String → Except String (List Row)

/-- The eager-query loop of `Executor.Execute`, instrumented with the list
of SQL texts actually issued (the round-trip trace).  Each step
substitutes the current frontier into the template, runs it, stores the
rows under the relation name and extracts the next frontier from column
`"id"` of the new rows. -/
def runEager (db : Database) :
    List (String × String) → List GoValue → List (String × List Row) →
    Except String (List (String × List Row)) × List String
  | [], _, relations => (.ok relations, [])
  | (relName, relSQL) :: rest, parentIDs, relations =>
      let sql := replacePlaceholder relSQL parentIDs
      match db sql with
      | .error e =>
          (.error ("eager query \'" ++ relName ++ "\' failed: " ++ e), [sql])
      | .ok eagerRows =>
          let next := runEager db rest (extractIDs eagerRows "id")
            (aset relations relName eagerRows)
          (next.1, sql :: next.2)

/-- `Executor.Execute` after SQL generation: run the main query, then the
eager chain; the second component is the trace of issued round-trips.
(The Go method first checks the connection and calls `qb.ToSQL()`; both
are external collaborators, so the embedding starts from the
`GeneratedSQL` and the query's entity name.) -/
def Execute (db : Database) (entity : String) (gen : GeneratedSQL) :
    Except String QueryResult × List String :=
  match db gen.MainQuery with
  | .error e => (.error ("main query failed: " ++ e), [gen.MainQuery])
  | .ok mainRows =>
      let eager := runEager db gen.EagerQueries (extractIDs mainRows "id") []
      match eager.1 with
      | .error e => (.error e, gen.MainQuery :: eager.2)
      | .ok relations =>
          (.ok ⟨entity, mainRows, relations⟩, gen.MainQuery :: eager.2)

-- ============================================================
-- SCHEMA MERGER (schema package: SimpleMerger.Merge)
-- ============================================================

/-- `schema.SourceLine`: originating file and 1-based line number. -/
structure SourceLine where
  File : String
  LineNumber : Nat
  deriving DecidableEq, Repr

/-- `schema.MergedSchemaResult`: merged text (as characters) and the
merged-line-number to source-location map (Go `map[int]SourceLine`,
embedded as an association list — the merger only ever inserts fresh,
strictly increasing keys). -/
structure MergedSchemaResult where
  Content : List Char
  LineMap : List (Nat × SourceLine)
  deriving DecidableEq, Repr

/-- Split a character list at every newline (`strings.Split(s, "\n")`):
empty segments kept, `n` separators yield `n+1` segments. -/
def splitNl : List Char → List (List Char)
  | [] => [[]]
  | c :: rest =>
      if c = '\n' then [] :: splitNl rest
      else
        match splitNl rest with
        | [] => [[c]]
        | h :: t => (c :: h) :: t

/-- Merger writer state: text built so far, line map, and
`currentMergedLine`. -/
structure MergeState where
  merged : List Char
  lineMap : List (Nat × SourceLine)
  current : Nat
  deriving Repr

/-- The `// ====…====` banner line (42 characters). -/
def bannerBar : List Char :=
  "// ==========================================".data

/-- The `// From: <filename>` banner line. -/
def bannerFrom (filename : String) : List Char :=
  ("// From: " ++ filename).data

/-- The per-file content loop of `Merge`: each split line is written and
mapped, except that a final empty segment (the artifact of a trailing
newline) is skipped; every line but the last segment is followed by a
newline; `currentMergedLine` advances once per non-skipped line. -/
def writeLines (filename : String) (total : Nat) :
    Nat → List (List Char) → MergeState → MergeState
  | _, [], st => st
  | lineIdx, line :: rest, st =>
      if line = [] ∧ lineIdx = total - 1 then
        writeLines filename total (lineIdx + 1) rest st
      else
        writeLines filename total (lineIdx + 1) rest
          { merged := st.merged ++ line ++
              (if lineIdx < total - 1 then ['\n'] else []),
            lineMap := st.lineMap ++ [(st.current, ⟨filename, lineIdx + 1⟩)],
            current := st.current + 1 }

/-- One file's contribution in `Merge`: three banner lines (each written
with a newline and counted but not mapped), the content lines, then a
blank `"\n\n"` separator counted as two lines. -/
def mergeFile (st : MergeState) (filename : String) (content : List Char) :
    MergeState :=
  let st1 : MergeState :=
    { st with merged := st.merged ++ bannerBar ++ ['\n'],
              current := st.current + 1 }
  let st2 : MergeState :=
    { st1 with merged := st1.merged ++ bannerFrom filename ++ ['\n'],
               current := st1.current + 1 }
  let st3 : MergeState :=
    { st2 with merged := st2.merged ++ bannerBar ++ ['\n'],
               current := st2.current + 1 }
  let lines := splitNl content
  let st4 := writeLines filename lines.length 0 lines st3
  { st4 with merged := st4.merged ++ ['\n', '\n'],
             current := st4.current + 2 }

/-- `SimpleMerger.Merge`. -/
def Merge (filenames : List String) (contents : List (List Char)) :
    Except String MergedSchemaResult :=
  if filenames.length ≠ contents.length then
    .error "filenames and contents length mismatch"
  else if filenames.length = 0 then .error "no schema files to merge"
  else
    let fin := (filenames.zip contents).foldl
      (fun st fc => mergeFile st fc.1 fc.2) ⟨[], [], 1⟩
    .ok ⟨fin.merged, fin.lineMap⟩

-- ============================================================
-- SPEC-SIDE GROUND TRUTH FOR MERGE PROVENANCE
-- ============================================================

/-- Modelled from the spec: the lines a file contributes to the merged
text — its split lines with the trailing empty artifact of a final
newline dropped. -/
def keptLines (content : List Char) : List (List Char) :=
  (splitNl content).dropLast

/-- Modelled from the spec: a file's content lines tagged with their
provenance, numbering from `j`. -/
def tagLines (filename : String) : Nat → List (List Char) →
    List (Option SourceLine × List Char)
  | _, [] => []
  | j, l :: rest => (some ⟨filename, j⟩, l) :: tagLines filename (j + 1) rest

/-- Modelled from the spec: one file's block of merged output lines, each
tagged with its provenance — three untagged banner lines, the content
lines tagged `(file, original 1-based line)`, and two untagged blank
separator lines ("recording for every physical output line which
(file, original-line) it came from, including banner lines (which map to
no source and are skipped in the map)"). -/
def specFileLines (filename : String) (content : List Char) :
    List (Option SourceLine × List Char) :=
  [(none, bannerBar), (none, bannerFrom filename), (none, bannerBar)] ++
    tagLines filename 1 (keptLines content) ++
    [(none, []), (none, [])]

/-- Modelled from the spec: the tagged lines of the whole merge, file
blocks in input order. -/
def specLines : List (String × List Char) →
    List (Option SourceLine × List Char)
  | [] => []
  | fc :: rest => specFileLines fc.1 fc.2 ++ specLines rest

/-- The merged text a tagged line list denotes: each line followed by a
newline. -/
def specContent (tagged : List (Option SourceLine × List Char)) : List Char :=
  (tagged.map fun tl => tl.2 ++ ['\n']).flatten

/-- The line map a tagged line list denotes, numbering positions from
`pos`: a tagged line yields the entry `(position, source)`; banner and
separator lines yield nothing. -/
def specEntriesFrom : Nat → List (Option SourceLine × List Char) →
    List (Nat × SourceLine)
  | _, [] => []
  | pos, (none, _) :: rest => specEntriesFrom (pos + 1) rest
  | pos, (some sl, _) :: rest => (pos, sl) :: specEntriesFrom (pos + 1) rest

/-- The line map a tagged line list denotes: position `k` (1-based) maps
to the tag of line `k` when there is one; banner and separator lines are
absent. -/
def specEntries (tagged : List (Option SourceLine × List Char)) :
    List (Nat × SourceLine) :=
  specEntriesFrom 1 tagged

-- ============================================================
-- SPEC-SIDE GROUND TRUTH FOR THE FRONTIER
-- ============================================================

/-- Modelled from the spec: "the set of primary-key values extracted from
the resulting rows, normalized to a canonical string representation" —
the values under the schema's declared primary-key column of each row
that has one, normalized exactly as the executor normalizes
identifiers. -/
def specPkValues (pkField : String) (rows : List Row) : List GoValue :=
  rows.foldl
    (fun ids row =>
      match alookup row pkField with
      | some id => ids ++ [normalizeId id]
      | none => ids)
    []

-- ============================================================
-- CONCRETE FIXTURES (for witnesses and counterexamples)
-- ============================================================

/-- The schema the builder test suite constructs (`testSchema` in the
mutation builder tests): a `User` entity with `id` (UUID, primary),
`email` (String, unique), `name` (String), `age` (Int, nullable). -/
def sampleSchema : Schema :=
  ⟨[⟨"User",
     [("id", ⟨"id", ⟨"UUID"⟩, false, false, true, none⟩),
      ("email", ⟨"email", ⟨"String"⟩, false, true, false, none⟩),
      ("name", ⟨"name", ⟨"String"⟩, false, false, false, none⟩),
      ("age", ⟨"age", ⟨"Int"⟩, true, false, false, none⟩)]⟩]⟩

/-- A two-level include plan: users, their orders, the orders' items. -/
def sampleGen : GeneratedSQL :=
  ⟨"SELECT * FROM users",
   [("orders", "SELECT * FROM orders WHERE user_id IN ($PARENT_IDS)"),
    ("items", "SELECT * FROM items WHERE order_id IN ($PARENT_IDS)")]⟩

/-- A database answering `sampleGen`'s three round-trips. -/
def sampleDb : Database := fun sql =>
  if sql = "SELECT * FROM users" then
    .ok [[("id", .vstr "u1")], [("id", .vstr "u2")]]
  else if sql = "SELECT * FROM orders WHERE user_id IN (\'u1\', \'u2\')" then
    .ok [[("id", .vint 7)]]
  else if sql = "SELECT * FROM items WHERE order_id IN (7)" then
    .ok [[("id", .vstr "i1")]]
  else .error "no such query"

/-- A database whose orders round-trip fails. -/
def failingDb : Database := fun sql =>
  if sql = "SELECT * FROM users" then .ok [[("id", .vstr "u1")]]
  else .error "boom"

/-- A database returning no rows for the main query and zero rows for the
`NULL`-substituted eager fetches. -/
def emptyDb : Database := fun sql =>
  if sql = "SELECT * FROM users" then .ok []
  else if sql = "SELECT * FROM orders WHERE user_id IN (NULL)" then .ok []
  else if sql = "SELECT * FROM items WHERE order_id IN (NULL)" then .ok []
  else .error "no such query"

/-- An entity whose declared primary key column is `uid`, not `id`. -/
def accountEntity : Entity :=
  ⟨"Account", [("uid", ⟨"uid", ⟨"UUID"⟩, false, false, true, none⟩)]⟩

/-- A one-include plan over `Account`. -/
def accountGen : GeneratedSQL :=
  ⟨"SELECT * FROM accounts",
   [("orders", "SELECT * FROM orders WHERE account_id IN ($PARENT_IDS)")]⟩

/-- A database whose accounts carry their key in the `uid` column. -/
def accountDb : Database := fun sql =>
  if sql = "SELECT * FROM accounts" then .ok [[("uid", .vstr "u1")]]
  else if sql = "SELECT * FROM orders WHERE account_id IN (NULL)" then .ok []
  else .error "no such query"

-- ============================================================
-- THEOREMS
-- ============================================================

-- ---------- general helper lemmas ----------

theorem list_map_eq_self {α : Type} {f : α → α} :
    ∀ {l : List α}, l.map f = l → ∀ x ∈ l, f x = x := by
  intro l
  induction l with
  | nil => intro _ x hx; cases hx
  | cons a as ih =>
      intro h x hx
      simp only [List.map_cons, List.cons.injEq] at h
      rw [List.mem_cons] at hx
      rcases hx with rfl | hx
      · exact h.1
      · exact ih h.2 x hx

theorem asciiLowerChar_ne_of_upper {c : Char} (h1 : 'A' ≤ c) (h2 : c ≤ 'Z') :
    asciiLowerChar c ≠ c := by
  have hn1 : 65 ≤ c.toNat := Char.le_def.mp h1
  have hn2 : c.toNat ≤ 90 := Char.le_def.mp h2
  have hc : Char.ofNat c.toNat = c := Char.ofNat_toNat c
  rw [← hc]
  have : ∀ n : Nat, 65 ≤ n → n ≤ 90 →
      asciiLowerChar (Char.ofNat n) ≠ Char.ofNat n := by
    intro n hl hr
    interval_cases n <;> decide
  exact this c.toNat hn1 hn2

-- ---------- C1 ----------

/-- C1: for every schema and entity present in it, `ValidateDeleteInput`
with an empty filter map and `forceDeleteAll` unset returns the
SafetyError with operation `delete_without_filter`; with `forceDeleteAll`
set, the same zero-filter delete passes validation with no error. -/
theorem delete_guard_blocks_and_force_overrides (s : Schema) (entity : String)
    (h : (s.GetEntity entity).isSome) :
    ValidateDeleteInput s entity [] false =
      some (.safety "delete_without_filter" "DELETE without WHERE is blocked"
        "Use Filter() or ForceDeleteAll()") ∧
    ValidateDeleteInput s entity [] true = none := by
  obtain ⟨ent, hent⟩ := Option.isSome_iff_exists.mp h
  unfold ValidateDeleteInput
  rw [hent]
  simp

theorem delete_guard_blocks_and_force_overrides_witness :
    (sampleSchema.GetEntity "User").isSome ∧
    (ValidateDeleteInput sampleSchema "User" [] false =
      some (.safety "delete_without_filter" "DELETE without WHERE is blocked"
        "Use Filter() or ForceDeleteAll()") ∧
     ValidateDeleteInput sampleSchema "User" [] true = none) :=
  ⟨by decide,
   delete_guard_blocks_and_force_overrides sampleSchema "User" (by decide)⟩

-- ---------- C2 ----------

/-- C2 (code bug): `UpdateBuilder.ForceUpdateAll` never reaches the
validator — `ValidateUpdateInput` takes no force parameter and `Build`
does not pass `forceAll` — so a zero-filter update with the override
invoked is still rejected as the `update_without_filter` SafetyError,
identically to the builder without the override. -/
theorem force_update_all_has_no_effect :
    (((NewUpdateBuilder sampleSchema "User").Set "name"
        (.vstr "Ana")).ForceUpdateAll).Build =
      .error (.safety "update_without_filter" "UPDATE requires a WHERE clause"
        "Use Filter() or ForceUpdateAll()") ∧
    (((NewUpdateBuilder sampleSchema "User").Set "name"
        (.vstr "Ana")).ForceUpdateAll).Build =
      ((NewUpdateBuilder sampleSchema "User").Set "name" (.vstr "Ana")).Build :=
  ⟨by rfl, by rfl⟩

-- ---------- C7 ----------

/-- C7 fails on the code: `age` is declared `Int` in the sample schema,
yet an insert providing the string `"not-an-int"` for it passes
validation — `validateFieldType` has no case for `Int` (nor `Decimal`,
`Bool`, `Timestamp`), so a value of the wrong runtime kind is not
rejected. -/
theorem insert_type_check_gap_cex :
    ((sampleSchema.GetEntity "User").bind fun e =>
        (alookup e.Fields "age").map fun f => f.Type'.Kind) = some "Int" ∧
    ValidateInsertInput sampleSchema "User"
      [("email", .vstr "a@b.com"), ("name", .vstr "Ana"),
       ("age", .vstr "not-an-int")] = none := by
  constructor
  · rfl
  · rfl

/-- C7 amended: in insert validation a provided non-null value receives a
type-specific check only when its field's declared kind is `UUID` (the
value must be canonically parseable UUID text) or `String` (the value
must be a string); for every other declared kind (`Int`, `Decimal`,
`Bool`, `Timestamp`) the type check accepts any non-null value. -/
theorem field_type_checks_only_uuid_and_string (field : Field)
    (name : String) (v : GoValue) (hv : v ≠ .vnil) :
    (field.Type'.Kind = "UUID" →
      (validateFieldType field name v = none ↔
        ∃ s, v = .vstr s ∧ isValidUUID s = true)) ∧
    (field.Type'.Kind = "String" →
      (validateFieldType field name v = none ↔ ∃ s, v = .vstr s)) ∧
    (field.Type'.Kind ≠ "UUID" → field.Type'.Kind ≠ "String" →
      validateFieldType field name v = none) := by
  refine ⟨fun hk => ?_, fun hk => ?_, fun hk1 hk2 => ?_⟩
  · cases v with
    | vstr s =>
        simp only [validateFieldType, hk, if_pos rfl]
        split <;> simp_all
    | vnil => exact absurd rfl hv
    | vint n => simp_all [validateFieldType]
    | vbool b => simp_all [validateFieldType]
    | vbytes bs => simp_all [validateFieldType]
    | vuuid16 bs => simp_all [validateFieldType]
  · cases v <;> simp_all [validateFieldType]
  · cases v <;> simp_all [validateFieldType]

theorem field_type_checks_only_uuid_and_string_witness :
    ((GoValue.vstr "not-an-int") ≠ GoValue.vnil) ∧
    validateFieldType ⟨"age", ⟨"Int"⟩, true, false, false, none⟩ "age"
      (.vstr "not-an-int") = none :=
  ⟨by decide,
   (field_type_checks_only_uuid_and_string
      ⟨"age", ⟨"Int"⟩, true, false, false, none⟩ "age"
      (.vstr "not-an-int") (by decide)).2.2 (by decide) (by decide)⟩

-- ---------- C9 ----------

/-- C9: for every existing entity, a `DeleteBuilder` with `ForceDeleteAll`
set and no filters passes `Build` validation, and the SQL it renders is
`DELETE FROM "<entity lowercased>" WHERE ` — the `WHERE` keyword followed
by an empty predicate, a syntactically incomplete statement rather than
an unconditional `DELETE`. -/
theorem force_delete_builds_incomplete_sql (s : Schema) (entity : String)
    (h : (s.GetEntity entity).isSome) :
    ((NewDeleteBuilder s entity).ForceDeleteAll).Build =
      .ok (⟨MutationType.delete, entity, false⟩,
        "DELETE FROM \"" ++ asciiToLower entity ++ "\" WHERE ") := by
  obtain ⟨ent, hent⟩ := Option.isSome_iff_exists.mp h
  unfold DeleteBuilder.Build NewDeleteBuilder DeleteBuilder.ForceDeleteAll
  unfold ValidateDeleteInput
  rw [hent]
  simp [parseFilters, generateDeleteSQL, String.intercalate]

theorem force_delete_builds_incomplete_sql_witness :
    (sampleSchema.GetEntity "User").isSome ∧
    ((NewDeleteBuilder sampleSchema "User").ForceDeleteAll).Build =
      .ok (⟨MutationType.delete, "User", false⟩,
        "DELETE FROM \"user\" WHERE ") := by
  refine ⟨by decide, ?_⟩
  rw [force_delete_builds_incomplete_sql sampleSchema "User" (by decide)]
  rfl

-- ---------- C10 ----------

/-- C10: the insert builder interpolates the entity name verbatim into the
quoted table identifier, while the update and delete builders lowercase
it; for an entity name containing an uppercase ASCII letter the quoted
identifiers therefore differ. -/
theorem insert_vs_update_delete_table_casing (entity : String) :
    (∀ values, ∃ rest, generateInsertSQL entity values =
        "INSERT INTO \"" ++ entity ++ "\" (" ++ rest) ∧
    (∀ updates filters, ∃ rest, generateUpdateSQL entity updates filters =
        "UPDATE \"" ++ asciiToLower entity ++ "\" SET " ++ rest) ∧
    (∀ filters, ∃ rest, generateDeleteSQL entity filters =
        "DELETE FROM \"" ++ asciiToLower entity ++ "\" WHERE " ++ rest) ∧
    ((∃ c ∈ entity.data, 'A' ≤ c ∧ c ≤ 'Z') →
      ("\"" ++ entity ++ "\"" : String) ≠ "\"" ++ asciiToLower entity ++ "\"") := by
  refine ⟨fun values =>
      ⟨formatList (values.map fun fv => "\"" ++ fv.1 ++ "\"") ++
        (") VALUES (" ++
          (formatList ((List.range values.length).map fun i => dollar (i + 1)) ++
            ") RETURNING *")), ?_⟩,
    fun updates filters =>
      ⟨String.intercalate ", " ((updates.enumFrom 1).map fun ifv =>
          "\"" ++ ifv.2.1 ++ "\"=" ++ dollar ifv.1) ++
        (" WHERE " ++
          (String.intercalate " AND "
            ((filters.enumFrom (updates.length + 1)).map fun ifv =>
              "\"" ++ String.mk ((goSplitChar ifv.2.1.data ':').headD []) ++
                "\"=" ++ dollar ifv.1) ++ " RETURNING *")), ?_⟩,
    fun filters =>
      ⟨String.intercalate " AND " ((filters.enumFrom 1).map fun ifv =>
        "\"" ++ String.mk ((goSplitChar ifv.2.1.data ':').headD []) ++
          "\"=" ++ dollar ifv.1), ?_⟩, ?_⟩
  · simp only [generateInsertSQL, String.append_assoc]
  · simp only [generateUpdateSQL, String.append_assoc]
  · simp only [generateDeleteSQL, String.append_assoc]
  · rintro ⟨c, hc, h1, h2⟩ heq
    have hdata := congrArg String.data heq
    simp only [String.data_append] at hdata
    have hmk : (asciiToLower entity).data = entity.data.map asciiLowerChar := rfl
    rw [hmk] at hdata
    rw [List.append_assoc, List.append_assoc] at hdata
    have hcancel : entity.data ++ "\"".data =
        entity.data.map asciiLowerChar ++ "\"".data :=
      List.append_cancel_left hdata
    have heq2 : entity.data = entity.data.map asciiLowerChar :=
      List.append_cancel_right hcancel
    have hfix := list_map_eq_self heq2.symm c hc
    exact asciiLowerChar_ne_of_upper h1 h2 hfix

theorem insert_vs_update_delete_table_casing_witness :
    (∃ c ∈ "User".data, 'A' ≤ c ∧ c ≤ 'Z') ∧
    ("\"" ++ "User" ++ "\"" : String) ≠ "\"" ++ asciiToLower "User" ++ "\"" :=
  ⟨⟨'U', by decide⟩,
   (insert_vs_update_delete_table_casing "User").2.2.2 ⟨'U', by decide⟩⟩

-- ---------- executor helper lemmas ----------

theorem alookup_aset {α : Type} (k k' : String) (v : α) :
    ∀ m : List (String × α),
    alookup (aset m k' v) k = if k' = k then some v else alookup m k := by
  intro m
  induction m with
  | nil => by_cases h : k' = k <;> simp [aset, alookup, h]
  | cons p rest ih =>
      obtain ⟨k₀, v₀⟩ := p
      by_cases h0 : k₀ = k'
      · subst h0
        by_cases h1 : k₀ = k <;> simp [aset, alookup, h1]
      · by_cases h1 : k₀ = k
        · subst h1
          have h2 : ¬ k' = k₀ := fun h => h0 h.symm
          simp [aset, alookup, h0, h2]
        · simp [aset, alookup, h0, h1, ih]

theorem mem_aset {α : Type} (k : String) (v : α) :
    ∀ (m : List (String × α)) (p : String × α),
    p ∈ aset m k v → p.2 = v ∨ p ∈ m := by
  intro m
  induction m with
  | nil => intro p hp; simp [aset] at hp; simp [hp]
  | cons q rest ih =>
      obtain ⟨k₀, v₀⟩ := q
      intro p hp
      by_cases h0 : k₀ = k
      · simp only [aset, if_pos h0, List.mem_cons] at hp
        rcases hp with rfl | hp
        · exact Or.inl rfl
        · exact Or.inr (List.mem_cons_of_mem _ hp)
      · simp only [aset, if_neg h0, List.mem_cons] at hp
        rcases hp with rfl | hp
        · exact Or.inr (List.mem_cons_self _ _)
        · rcases ih p hp with h | h
          · exact Or.inl h
          · exact Or.inr (List.mem_cons_of_mem _ h)

theorem runEager_cons_err (db : Database) (rn rs : String)
    (rest : List (String × String)) (ids : List GoValue)
    (rels : List (String × List Row)) (e : String)
    (hdb : db (replacePlaceholder rs ids) = .error e) :
    runEager db ((rn, rs) :: rest) ids rels =
      (.error ("eager query \'" ++ rn ++ "\' failed: " ++ e),
       [replacePlaceholder rs ids]) := by
  simp only [runEager, hdb]

theorem runEager_cons_ok (db : Database) (rn rs : String)
    (rest : List (String × String)) (ids : List GoValue)
    (rels : List (String × List Row)) (rows : List Row)
    (hdb : db (replacePlaceholder rs ids) = .ok rows) :
    runEager db ((rn, rs) :: rest) ids rels =
      ((runEager db rest (extractIDs rows "id") (aset rels rn rows)).1,
       replacePlaceholder rs ids ::
         (runEager db rest (extractIDs rows "id") (aset rels rn rows)).2) := by
  simp only [runEager, hdb]

theorem Execute_main_err (db : Database) (entity : String) (gen : GeneratedSQL)
    (e : String) (h : db gen.MainQuery = .error e) :
    Execute db entity gen =
      (.error ("main query failed: " ++ e), [gen.MainQuery]) := by
  simp only [Execute, h]

theorem Execute_main_ok_ok (db : Database) (entity : String) (gen : GeneratedSQL)
    (rows : List Row) (rels : List (String × List Row))
    (hm : db gen.MainQuery = .ok rows)
    (hE : (runEager db gen.EagerQueries (extractIDs rows "id") []).1 = .ok rels) :
    Execute db entity gen =
      (.ok ⟨entity, rows, rels⟩,
       gen.MainQuery ::
         (runEager db gen.EagerQueries (extractIDs rows "id") []).2) := by
  simp only [Execute, hm, hE]

theorem Execute_main_ok_err (db : Database) (entity : String) (gen : GeneratedSQL)
    (rows : List Row) (e : String)
    (hm : db gen.MainQuery = .ok rows)
    (hE : (runEager db gen.EagerQueries (extractIDs rows "id") []).1 = .error e) :
    Execute db entity gen =
      (.error e,
       gen.MainQuery ::
         (runEager db gen.EagerQueries (extractIDs rows "id") []).2) := by
  simp only [Execute, hm, hE]

theorem runEager_ok_length (db : Database) :
    ∀ (eagers : List (String × String)) (ids : List GoValue)
      (rels : List (String × List Row)),
    (runEager db eagers ids rels).1.isOk = true →
    (runEager db eagers ids rels).2.length = eagers.length := by
  intro eagers
  induction eagers with
  | nil => intro ids rels _; rfl
  | cons t rest ih =>
      obtain ⟨rn, rs⟩ := t
      intro ids rels hok
      cases hdb : db (replacePlaceholder rs ids) with
      | error e =>
          rw [runEager_cons_err db rn rs rest ids rels e hdb] at hok
          simp [Except.isOk, Except.toBool] at hok
      | ok rows =>
          rw [runEager_cons_ok db rn rs rest ids rels rows hdb] at hok ⊢
          simp only [List.length_cons]
          exact congrArg (· + 1) (ih _ _ hok)

theorem runEager_ok_head (db : Database) (rn rs : String)
    (rest : List (String × String)) (ids : List GoValue)
    (rels : List (String × List Row))
    (hok : (runEager db ((rn, rs) :: rest) ids rels).1.isOk = true) :
    (runEager db ((rn, rs) :: rest) ids rels).2.getD 0 "" =
      replacePlaceholder rs ids ∧
    ∃ rows, db (replacePlaceholder rs ids) = .ok rows := by
  cases hdb : db (replacePlaceholder rs ids) with
  | error e =>
      rw [runEager_cons_err db rn rs rest ids rels e hdb] at hok
      simp [Except.isOk, Except.toBool] at hok
  | ok rows =>
      rw [runEager_cons_ok db rn rs rest ids rels rows hdb]
      exact ⟨rfl, rows, rfl⟩

theorem runEager_ok_step (db : Database) :
    ∀ (eagers : List (String × String)) (ids : List GoValue)
      (rels : List (String × List Row)) (i : Nat),
    (runEager db eagers ids rels).1.isOk = true →
    i + 1 < eagers.length →
    ∃ rows, db ((runEager db eagers ids rels).2.getD i "") = .ok rows ∧
      (runEager db eagers ids rels).2.getD (i + 1) "" =
        replacePlaceholder (eagers.getD (i + 1) ("", "")).2
          (extractIDs rows "id") := by
  intro eagers
  induction eagers with
  | nil => intro ids rels i _ hi; simp at hi
  | cons t rest ih =>
      obtain ⟨rn, rs⟩ := t
      intro ids rels i hok hi
      cases hdb : db (replacePlaceholder rs ids) with
      | error e =>
          rw [runEager_cons_err db rn rs rest ids rels e hdb] at hok
          simp [Except.isOk, Except.toBool] at hok
      | ok rows =>
          rw [runEager_cons_ok db rn rs rest ids rels rows hdb] at hok ⊢
          simp only at hok
          cases i with
          | zero =>
              refine ⟨rows, hdb, ?_⟩
              simp only [List.length_cons, Nat.add_lt_add_iff_right] at hi
              cases hrest : rest with
              | nil => rw [hrest] at hi; simp at hi
              | cons t' rest' =>
                  obtain ⟨rn', rs'⟩ := t'
                  have hok' := hok
                  rw [hrest] at hok'
                  have hh := runEager_ok_head db rn' rs' rest'
                    (extractIDs rows "id") (aset rels rn rows) hok'
                  simp only [List.getD_cons_succ, List.getD_cons_zero]
                  exact hh.1
          | succ i' =>
              simp only [List.length_cons, Nat.add_lt_add_iff_right] at hi
              have := ih (extractIDs rows "id") (aset rels rn rows) i' hok hi
              simpa using this

theorem runEager_error_shape (db : Database) :
    ∀ (eagers : List (String × String)) (ids : List GoValue)
      (rels : List (String × List Row)) (e : String),
    (runEager db eagers ids rels).1 = .error e →
    ∃ j e', j < eagers.length ∧
      e = "eager query \'" ++ (eagers.getD j ("", "")).1 ++ "\' failed: " ++ e' ∧
      (runEager db eagers ids rels).2.length = j + 1 := by
  intro eagers
  induction eagers with
  | nil => intro ids rels e h; simp [runEager] at h
  | cons t rest ih =>
      obtain ⟨rn, rs⟩ := t
      intro ids rels e h
      cases hdb : db (replacePlaceholder rs ids) with
      | error e0 =>
          rw [runEager_cons_err db rn rs rest ids rels e0 hdb] at h ⊢
          simp only [Except.error.injEq] at h
          exact ⟨0, e0, by simp, h.symm, rfl⟩
      | ok rows =>
          rw [runEager_cons_ok db rn rs rest ids rels rows hdb] at h ⊢
          simp only at h
          obtain ⟨j, e', hj, he, hlen⟩ :=
            ih (extractIDs rows "id") (aset rels rn rows) e h
          refine ⟨j + 1, e', by simpa using hj, by simpa using he, ?_⟩
          simpa using hlen

theorem runEager_ok_keys (db : Database) :
    ∀ (eagers : List (String × String)) (ids : List GoValue)
      (rels rels' : List (String × List Row)),
    (runEager db eagers ids rels).1 = .ok rels' →
    ∀ k, ((∃ t ∈ eagers, t.1 = k) ∨ (alookup rels k).isSome = true) →
      (alookup rels' k).isSome = true := by
  intro eagers
  induction eagers with
  | nil =>
      intro ids rels rels' h k hk
      simp only [runEager, Except.ok.injEq] at h
      rcases hk with ⟨t, ht, _⟩ | hk
      · simp at ht
      · rw [← h]; exact hk
  | cons t rest ih =>
      obtain ⟨rn, rs⟩ := t
      intro ids rels rels' h k hk
      cases hdb : db (replacePlaceholder rs ids) with
      | error e =>
          rw [runEager_cons_err db rn rs rest ids rels e hdb] at h
          simp at h
      | ok rows =>
          rw [runEager_cons_ok db rn rs rest ids rels rows hdb] at h
          simp only at h
          apply ih (extractIDs rows "id") (aset rels rn rows) rels' h k
          rcases hk with ⟨t', ht', hk'⟩ | hk
          · rw [List.mem_cons] at ht'
            rcases ht' with rfl | ht'
            · right
              rw [alookup_aset, if_pos hk']
              rfl
            · exact Or.inl ⟨t', ht', hk'⟩
          · right
            rw [alookup_aset]
            by_cases hrn : rn = k
            · rw [if_pos hrn]; rfl
            · rw [if_neg hrn]; exact hk

theorem runEager_all_empty (db : Database) :
    ∀ (eagers : List (String × String)) (rels : List (String × List Row)),
    (∀ t ∈ eagers, db (goReplaceFirst t.2 "$PARENT_IDS" "NULL") = .ok []) →
    (∀ p ∈ rels, p.2 = ([] : List Row)) →
    ∃ rels', (runEager db eagers [] rels).1 = .ok rels' ∧
      ∀ p ∈ rels', p.2 = ([] : List Row) := by
  intro eagers
  induction eagers with
  | nil => intro rels _ hrels; exact ⟨rels, rfl, hrels⟩
  | cons t rest ih =>
      obtain ⟨rn, rs⟩ := t
      intro rels hnull hrels
      have hdb : db (replacePlaceholder rs []) = .ok [] :=
        hnull (rn, rs) (List.mem_cons_self _ _)
      have hrels2 : ∀ p ∈ aset rels rn ([] : List Row), p.2 = ([] : List Row) := by
        intro p hp
        rcases mem_aset rn [] rels p hp with h | h
        · exact h
        · exact hrels p h
      obtain ⟨rels', hok, hall⟩ := ih (aset rels rn [])
        (fun t' ht' => hnull t' (List.mem_cons_of_mem _ ht')) hrels2
      refine ⟨rels', ?_, hall⟩
      rw [runEager_cons_ok db rn rs rest [] rels [] hdb]
      simpa [extractIDs] using hok

theorem Execute_ok_chain (db : Database) (entity : String) (gen : GeneratedSQL)
    (res : QueryResult) (h : (Execute db entity gen).1 = .ok res) :
    (Execute db entity gen).2.length = gen.EagerQueries.length + 1 ∧
    (Execute db entity gen).2.getD 0 "" = gen.MainQuery ∧
    ∀ i, i < gen.EagerQueries.length →
      ∃ rows, db ((Execute db entity gen).2.getD i "") = .ok rows ∧
        (Execute db entity gen).2.getD (i + 1) "" =
          replacePlaceholder (gen.EagerQueries.getD i ("", "")).2
            (extractIDs rows "id") := by
  cases hm : db gen.MainQuery with
  | error e =>
      rw [Execute_main_err db entity gen e hm] at h
      simp at h
  | ok mainRows =>
      cases hE : (runEager db gen.EagerQueries (extractIDs mainRows "id") []).1 with
      | error e =>
          rw [Execute_main_ok_err db entity gen mainRows e hm hE] at h
          simp at h
      | ok rels =>
          have hok : (runEager db gen.EagerQueries
              (extractIDs mainRows "id") []).1.isOk = true := by
            rw [hE]; rfl
          rw [Execute_main_ok_ok db entity gen mainRows rels hm hE]
          refine ⟨?_, rfl, ?_⟩
          · simp only [List.length_cons]
            exact congrArg (· + 1)
              (runEager_ok_length db gen.EagerQueries _ [] hok)
          · intro i hi
            cases i with
            | zero =>
                refine ⟨mainRows, hm, ?_⟩
                cases heag : gen.EagerQueries with
                | nil => rw [heag] at hi; simp at hi
                | cons t' rest' =>
                    obtain ⟨rn', rs'⟩ := t'
                    have hok' := hok
                    rw [heag] at hok'
                    have hh := runEager_ok_head db rn' rs' rest'
                      (extractIDs mainRows "id") [] hok'
                    simp only [List.getD_cons_succ, List.getD_cons_zero, heag]
                    exact hh.1
            | succ i' =>
                have hstep := runEager_ok_step db gen.EagerQueries
                  (extractIDs mainRows "id") [] i' hok hi
                simpa using hstep

theorem extractIDs_eq_filterMap : ∀ (rows : List Row) (field : String),
    extractIDs rows field =
      rows.filterMap fun r => (alookup r field).map normalizeId := by
  have haux : ∀ (field : String) (rows : List Row) (acc : List GoValue),
      rows.foldl
        (fun ids row =>
          match alookup row field with
          | some id => ids ++ [normalizeId id]
          | none => ids) acc =
      acc ++ rows.filterMap fun r => (alookup r field).map normalizeId := by
    intro field rows
    induction rows with
    | nil => intro acc; simp
    | cons r rest ih =>
        intro acc
        cases hr : alookup r field with
        | none => simp [List.filterMap_cons, hr, ih]
        | some id => simp [List.filterMap_cons, hr, ih]
  intro rows field
  simpa [extractIDs] using haux field rows []

-- ---------- C3 ----------

/-- C3: whenever `Execute` succeeds on a plan with `k` eager-query
templates, it issues exactly `k+1` round-trips — the main query first,
then one round-trip per eager template, strictly in the order the
templates appear in `GeneratedSQL.EagerQueries`: the `(i+1)`-th issued
SQL text is the `i`-th template with `$PARENT_IDS` substituted from the
rows of the `i`-th round-trip. -/
theorem executor_k_plus_one_roundtrips (db : Database) (entity : String)
    (gen : GeneratedSQL) (res : QueryResult)
    (h : (Execute db entity gen).1 = .ok res) :
    (Execute db entity gen).2.length = gen.EagerQueries.length + 1 ∧
    (Execute db entity gen).2.getD 0 "" = gen.MainQuery ∧
    ∀ i, i < gen.EagerQueries.length →
      ∃ rows, db ((Execute db entity gen).2.getD i "") = .ok rows ∧
        (Execute db entity gen).2.getD (i + 1) "" =
          replacePlaceholder (gen.EagerQueries.getD i ("", "")).2
            (extractIDs rows "id") :=
  Execute_ok_chain db entity gen res h

theorem executor_k_plus_one_roundtrips_witness :
    (Execute sampleDb "User" sampleGen).1 =
      .ok ⟨"User", [[("id", .vstr "u1")], [("id", .vstr "u2")]],
        [("orders", [[("id", .vint 7)]]), ("items", [[("id", .vstr "i1")]])]⟩ ∧
    (Execute sampleDb "User" sampleGen).2.length = 3 := by
  refine ⟨by rfl, ?_⟩
  have h := (executor_k_plus_one_roundtrips sampleDb "User" sampleGen
    ⟨"User", [[("id", .vstr "u1")], [("id", .vstr "u2")]],
      [("orders", [[("id", .vint 7)]]), ("items", [[("id", .vstr "i1")]])]⟩
    (by rfl)).1
  simpa using h

-- ---------- C4 ----------

/-- C4: if the main query or any eager query fails, `Execute` aborts
immediately — the trace stops at the failing round-trip — and the caller
receives only an error naming the failing relation (or the main query);
on success the relation map contains an entry for every eager template,
so a partially-populated relation map is never returned. -/
theorem executor_aborts_on_failure (db : Database) (entity : String)
    (gen : GeneratedSQL) :
    (∀ e, (Execute db entity gen).1 = .error e →
      ((∃ e', e = "main query failed: " ++ e' ∧
          (Execute db entity gen).2.length = 1) ∨
       (∃ j e', j < gen.EagerQueries.length ∧
          e = "eager query \'" ++ (gen.EagerQueries.getD j ("", "")).1 ++
            "\' failed: " ++ e' ∧
          (Execute db entity gen).2.length = j + 2))) ∧
    (∀ res, (Execute db entity gen).1 = .ok res →
      ∀ t ∈ gen.EagerQueries, (alookup res.Relations t.1).isSome = true) := by
  constructor
  · intro e he
    cases hm : db gen.MainQuery with
    | error e0 =>
        rw [Execute_main_err db entity gen e0 hm] at he ⊢
        simp only [Except.error.injEq] at he
        exact Or.inl ⟨e0, he.symm, rfl⟩
    | ok mainRows =>
        cases hE : (runEager db gen.EagerQueries
            (extractIDs mainRows "id") []).1 with
        | ok rels =>
            rw [Execute_main_ok_ok db entity gen mainRows rels hm hE] at he
            simp at he
        | error e1 =>
            rw [Execute_main_ok_err db entity gen mainRows e1 hm hE] at he ⊢
            simp only [Except.error.injEq] at he
            subst he
            obtain ⟨j, e', hj, hshape, hlen⟩ := runEager_error_shape db
              gen.EagerQueries (extractIDs mainRows "id") [] e1 hE
            refine Or.inr ⟨j, e', hj, hshape, ?_⟩
            simp only [List.length_cons, hlen]
  · intro res hres t ht
    cases hm : db gen.MainQuery with
    | error e0 =>
        rw [Execute_main_err db entity gen e0 hm] at hres
        simp at hres
    | ok mainRows =>
        cases hE : (runEager db gen.EagerQueries
            (extractIDs mainRows "id") []).1 with
        | error e1 =>
            rw [Execute_main_ok_err db entity gen mainRows e1 hm hE] at hres
            simp at hres
        | ok rels =>
            rw [Execute_main_ok_ok db entity gen mainRows rels hm hE] at hres
            simp only [Except.ok.injEq] at hres
            rw [← hres]
            exact runEager_ok_keys db gen.EagerQueries
              (extractIDs mainRows "id") [] rels hE t.1 (Or.inl ⟨t, ht, rfl⟩)

theorem executor_aborts_on_failure_witness :
    (Execute failingDb "User" sampleGen).1 =
      .error "eager query \'orders\' failed: boom" ∧
    ∃ j e', j < sampleGen.EagerQueries.length ∧
      "eager query \'orders\' failed: boom" =
        "eager query \'" ++ (sampleGen.EagerQueries.getD j ("", "")).1 ++
          "\' failed: " ++ e' ∧
      (Execute failingDb "User" sampleGen).2.length = j + 2 := by
  refine ⟨by rfl, ?_⟩
  have h := (executor_aborts_on_failure failingDb "User" sampleGen).1
    "eager query \'orders\' failed: boom" (by rfl)
  rcases h with ⟨e', _, hlen⟩ | h
  · exact absurd hlen (by decide)
  · exact h

-- ---------- C5 ----------

/-- C5: with an empty frontier the `$PARENT_IDS` placeholder is replaced
by the literal `NULL`; consequently, when the main query returns no rows
and the database answers every `NULL`-substituted eager template with
zero rows, the whole execution succeeds with empty root rows and every
relation entry empty — no round-trip errors. -/
theorem empty_frontier_null_and_zero_rows (db : Database) (entity : String)
    (gen : GeneratedSQL)
    (hmain : db gen.MainQuery = .ok [])
    (hnull : ∀ t ∈ gen.EagerQueries,
      db (goReplaceFirst t.2 "$PARENT_IDS" "NULL") = .ok []) :
    (∀ sql, replacePlaceholder sql ([] : List GoValue) =
      goReplaceFirst sql "$PARENT_IDS" "NULL") ∧
    ∃ res, (Execute db entity gen).1 = .ok res ∧ res.Rows = [] ∧
      ∀ p ∈ res.Relations, p.2 = ([] : List Row) := by
  refine ⟨fun sql => rfl, ?_⟩
  obtain ⟨rels', hok, hall⟩ := runEager_all_empty db gen.EagerQueries [] hnull
    (by intro p hp; cases hp)
  refine ⟨⟨entity, [], rels'⟩, ?_, rfl, hall⟩
  rw [Execute_main_ok_ok db entity gen [] rels' hmain hok]

theorem empty_frontier_null_and_zero_rows_witness :
    (Execute emptyDb "User" sampleGen).1 =
      .ok ⟨"User", [], [("orders", []), ("items", [])]⟩ ∧
    ∃ res, (Execute emptyDb "User" sampleGen).1 = .ok res ∧ res.Rows = [] ∧
      ∀ p ∈ res.Relations, p.2 = ([] : List Row) := by
  refine ⟨by rfl, ?_⟩
  refine (empty_frontier_null_and_zero_rows emptyDb "User" sampleGen
    (by rfl) ?_).2
  intro t ht
  simp only [sampleGen, List.mem_cons, List.not_mem_nil, or_false] at ht
  rcases ht with rfl | rfl <;> rfl

-- ---------- C6 ----------

/-- C6 fails on the code: the executor extracts the frontier from the
hardcoded column `"id"`, not from the entity's declared primary key.  For
the `Account` entity, whose primary key column is `uid`, a main query
returning one row with `uid = "u1"` yields an empty frontier — the eager
query is issued with `NULL` substituted — although the primary-key values
of those rows are `["u1"]`. -/
theorem frontier_not_primary_key_cex :
    (alookup accountEntity.Fields "uid").map Field.PrimaryKey = some true ∧
    accountDb accountGen.MainQuery = .ok [[("uid", .vstr "u1")]] ∧
    specPkValues "uid" [[("uid", .vstr "u1")]] = [.vstr "u1"] ∧
    extractIDs [[("uid", .vstr "u1")]] "id" = [] ∧
    (Execute accountDb "Account" accountGen).2 =
      ["SELECT * FROM accounts",
       "SELECT * FROM orders WHERE account_id IN (NULL)"] :=
  ⟨rfl, rfl, rfl, rfl, rfl⟩

/-- C6 amended: after the main query and after each eager query, the
frontier substituted into the next eager template equals the values under
the column named `"id"` of the rows that step returned (rows lacking that
column are skipped), normalized per dynamic kind: `[]byte` decoded to
text, fixed-width 16-byte binary UUID values rendered as standard
hyphenated UUID text via `uuidToString`, strings kept as they are, and
any other value passed through unchanged. -/
theorem frontier_is_normalized_id_column (db : Database) (entity : String)
    (gen : GeneratedSQL) (res : QueryResult)
    (h : (Execute db entity gen).1 = .ok res) :
    (∀ rows field, extractIDs rows field =
      rows.filterMap fun r => (alookup r field).map normalizeId) ∧
    (∀ bs, normalizeId (.vuuid16 bs) = .vstr (uuidToString bs)) ∧
    (∀ bs, normalizeId (.vbytes bs) = .vstr (String.mk (bs.map Char.ofNat))) ∧
    (∀ s, normalizeId (.vstr s) = .vstr s) ∧
    (∀ i, i < gen.EagerQueries.length →
      ∃ rows, db ((Execute db entity gen).2.getD i "") = .ok rows ∧
        (Execute db entity gen).2.getD (i + 1) "" =
          replacePlaceholder (gen.EagerQueries.getD i ("", "")).2
            (extractIDs rows "id")) := by
  refine ⟨extractIDs_eq_filterMap, fun bs => rfl, fun bs => rfl, fun s => rfl, ?_⟩
  exact (Execute_ok_chain db entity gen res h).2.2

theorem frontier_is_normalized_id_column_witness :
    (Execute sampleDb "User" sampleGen).1 =
      .ok ⟨"User", [[("id", .vstr "u1")], [("id", .vstr "u2")]],
        [("orders", [[("id", .vint 7)]]), ("items", [[("id", .vstr "i1")]])]⟩ ∧
    normalizeId (.vuuid16
        [0x12, 0x34, 0x56, 0x78, 0x9a, 0xbc, 0xde, 0xf0,
         0x12, 0x34, 0x56, 0x78, 0x9a, 0xbc, 0xde, 0xf0]) =
      .vstr "12345678-9abc-def0-1234-56789abcdef0" := by
  refine ⟨by rfl, ?_⟩
  exact (frontier_is_normalized_id_column sampleDb "User" sampleGen
    ⟨"User", [[("id", .vstr "u1")], [("id", .vstr "u2")]],
      [("orders", [[("id", .vint 7)]]), ("items", [[("id", .vstr "i1")]])]⟩
    (by rfl)).2.1
    [0x12, 0x34, 0x56, 0x78, 0x9a, 0xbc, 0xde, 0xf0,
     0x12, 0x34, 0x56, 0x78, 0x9a, 0xbc, 0xde, 0xf0]

-- ---------- merger helper lemmas ----------

theorem splitNl_ne_nil : ∀ l : List Char, splitNl l ≠ [] := by
  intro l
  cases l with
  | nil => simp [splitNl]
  | cons c rest =>
      by_cases h : c = '\n'
      · simp [splitNl, h]
      · simp only [splitNl, if_neg h]
        cases splitNl rest <;> simp

theorem mem_splitNl_no_nl : ∀ (l : List Char) (p : List Char),
    p ∈ splitNl l → '\n' ∉ p := by
  intro l
  induction l with
  | nil =>
      intro p hp
      simp [splitNl] at hp
      simp [hp]
  | cons c rest ih =>
      intro p hp
      by_cases h : c = '\n'
      · subst h
        simp only [splitNl, reduceIte, List.mem_cons] at hp
        rcases hp with rfl | hp
        · simp
        · exact ih p hp
      · simp only [splitNl, if_neg h] at hp
        cases hsp : splitNl rest with
        | nil => exact absurd hsp (splitNl_ne_nil rest)
        | cons hd tl =>
            rw [hsp] at hp
            rw [List.mem_cons] at hp
            rcases hp with rfl | hp
            · intro hmem
              rw [List.mem_cons] at hmem
              rcases hmem with heq | hmem
              · exact h heq.symm
              · exact ih hd (by rw [hsp]; exact List.mem_cons_self _ _) hmem
            · exact ih p (by rw [hsp]; exact List.mem_cons_of_mem _ hp)

theorem splitNl_eq_single_nil : ∀ l : List Char, splitNl l = [[]] → l = [] := by
  intro l h
  cases l with
  | nil => rfl
  | cons c rest =>
      by_cases hc : c = '\n'
      · subst hc
        simp only [splitNl, reduceIte] at h
        rw [List.cons.injEq] at h
        exact absurd h.2 (splitNl_ne_nil rest)
      · simp only [splitNl, if_neg hc] at h
        cases hsp : splitNl rest with
        | nil => exact absurd hsp (splitNl_ne_nil rest)
        | cons hd tl =>
            rw [hsp] at h
            simp at h

theorem splitNl_ends_nil : ∀ l : List Char, l.getLast? = some '\n' →
    ∃ ks, splitNl l = ks ++ [[]] := by
  intro l
  induction l with
  | nil => intro h; simp at h
  | cons c rest ih =>
      intro h
      have hsplit : rest = [] ∨ rest.getLast? = some '\n' := by
        cases hrest : rest with
        | nil => exact Or.inl rfl
        | cons c' rest' =>
            right
            rw [hrest] at h
            rwa [List.getLast?_cons_cons] at h
      rcases hsplit with rfl | hlast
      · simp at h
        subst h
        exact ⟨[[]], rfl⟩
      · obtain ⟨ks, hks⟩ := ih hlast
        by_cases hc : c = '\n'
        · subst hc
          refine ⟨[] :: ks, ?_⟩
          simp only [splitNl, reduceIte, hks, List.cons_append]
        · cases hk : ks with
          | nil =>
              rw [hk] at hks
              simp only [List.nil_append] at hks
              have hnil := splitNl_eq_single_nil rest hks
              rw [hnil] at hlast
              simp at hlast
          | cons k₀ ks₀ =>
              refine ⟨(c :: k₀) :: ks₀, ?_⟩
              rw [hk, List.cons_append] at hks
              simp only [splitNl, if_neg hc, hks, List.cons_append]

theorem splitNl_append_cons : ∀ (l r : List Char), '\n' ∉ l →
    splitNl (l ++ '\n' :: r) = l :: splitNl r := by
  intro l
  induction l with
  | nil => intro r _; simp [splitNl]
  | cons c l' ih =>
      intro r hn
      have hc : c ≠ '\n' := by
        intro hc
        exact hn (by rw [hc]; exact List.mem_cons_self _ _)
      have hn' : '\n' ∉ l' := fun h => hn (List.mem_cons_of_mem _ h)
      rw [List.cons_append]
      simp only [splitNl, if_neg hc]
      rw [ih r hn']

theorem specContent_cons (t : Option SourceLine × List Char)
    (T : List (Option SourceLine × List Char)) :
    specContent (t :: T) = t.2 ++ '\n' :: specContent T := by
  simp [specContent]

theorem specContent_append (T T' : List (Option SourceLine × List Char)) :
    specContent (T ++ T') = specContent T ++ specContent T' := by
  simp [specContent]

theorem splitNl_specContent : ∀ T : List (Option SourceLine × List Char),
    (∀ tl ∈ T, '\n' ∉ tl.2) →
    splitNl (specContent T) = T.map Prod.snd ++ [[]] := by
  intro T
  induction T with
  | nil => intro _; simp [specContent, splitNl]
  | cons t T' ih =>
      intro hT
      rw [specContent_cons, splitNl_append_cons t.2 (specContent T')
        (hT t (List.mem_cons_self _ _))]
      rw [ih fun tl h => hT tl (List.mem_cons_of_mem _ h)]
      simp

theorem specEntriesFrom_append : ∀ (A B : List (Option SourceLine × List Char))
    (p : Nat),
    specEntriesFrom p (A ++ B) =
      specEntriesFrom p A ++ specEntriesFrom (p + A.length) B := by
  intro A
  induction A with
  | nil => intro B p; simp [specEntriesFrom]
  | cons a A' ih =>
      intro B p
      obtain ⟨tag, txt⟩ := a
      have hidx : p + 1 + A'.length = p + (A'.length + 1) := by omega
      cases tag with
      | none =>
          simp only [List.cons_append, specEntriesFrom, List.length_cons,
            List.append_eq]
          rw [ih B (p + 1), hidx]
      | some sl =>
          simp only [List.cons_append, specEntriesFrom, List.length_cons,
            List.append_eq]
          rw [ih B (p + 1), hidx]

theorem tagLines_length (fn : String) : ∀ (ks : List (List Char)) (j : Nat),
    (tagLines fn j ks).length = ks.length := by
  intro ks
  induction ks with
  | nil => intro j; rfl
  | cons l ks' ih => intro j; simp [tagLines, ih]

theorem tagLines_mem (fn : String) : ∀ (ks : List (List Char)) (j : Nat)
    (p : Option SourceLine × List Char), p ∈ tagLines fn j ks → p.2 ∈ ks := by
  intro ks
  induction ks with
  | nil => intro j p hp; simp [tagLines] at hp
  | cons l ks' ih =>
      intro j p hp
      simp only [tagLines, List.mem_cons] at hp
      rcases hp with rfl | hp
      · exact List.mem_cons_self _ _
      · exact List.mem_cons_of_mem _ (ih (j + 1) p hp)

theorem specContent_tagLines (fn : String) : ∀ (ks : List (List Char)) (j : Nat),
    specContent (tagLines fn j ks) = (ks.map fun l => l ++ ['\n']).flatten := by
  intro ks
  induction ks with
  | nil => intro j; rfl
  | cons l ks' ih =>
      intro j
      rw [show tagLines fn j (l :: ks') =
        (some ⟨fn, j⟩, l) :: tagLines fn (j + 1) ks' from rfl]
      rw [specContent_cons, ih (j + 1)]
      simp

theorem splitNl_of_good (content : List Char)
    (hgood : content = [] ∨ content.getLast? = some '\n') :
    splitNl content = keptLines content ++ [[]] := by
  rcases hgood with rfl | hlast
  · rfl
  · obtain ⟨ks, hks⟩ := splitNl_ends_nil content hlast
    rw [keptLines, hks]
    simp

theorem writeLines_spec (filename : String) :
    ∀ (ks : List (List Char)) (m : Nat) (st : MergeState),
    writeLines filename (m + ks.length + 1) m (ks ++ [[]]) st =
      ⟨st.merged ++ (ks.map fun l => l ++ ['\n']).flatten,
       st.lineMap ++ specEntriesFrom st.current (tagLines filename (m + 1) ks),
       st.current + ks.length⟩ := by
  intro ks
  induction ks with
  | nil =>
      intro m st
      simp only [List.nil_append, List.length_nil, Nat.add_zero]
      rw [writeLines]
      simp only [Nat.add_sub_cancel, and_self, reduceIte, if_pos]
      rw [writeLines]
      simp [specEntriesFrom, tagLines]
  | cons l ks' ih =>
      intro m st
      have hlen : m + (l :: ks').length + 1 = (m + 1) + ks'.length + 1 := by
        simp [List.length_cons]
        omega
      have hcond : ¬ (l = [] ∧ m = m + (l :: ks').length + 1 - 1) := by
        rintro ⟨-, h2⟩
        simp [List.length_cons] at h2
      have hlt : m < m + (l :: ks').length + 1 - 1 := by
        simp [List.length_cons]
      rw [show (l :: ks') ++ [[]] = l :: (ks' ++ [[]]) from rfl]
      rw [writeLines]
      rw [if_neg hcond, if_pos hlt]
      rw [hlen, ih (m + 1)]
      simp only [List.map_cons, List.flatten_cons, List.length_cons,
        MergeState.mk.injEq]
      refine ⟨?_, ?_, ?_⟩
      · simp [List.append_assoc]
      · have htag : tagLines filename (m + 1) (l :: ks') =
            (some ⟨filename, m + 1⟩, l) :: tagLines filename (m + 2) ks' := rfl
        rw [htag]
        simp only [specEntriesFrom]
        simp [List.append_assoc]
      · omega

theorem mergeFile_spec (st : MergeState) (filename : String)
    (content : List Char) (T : List (Option SourceLine × List Char))
    (hgood : content = [] ∨ content.getLast? = some '\n')
    (hm : st.merged = specContent T) (hc : st.current = T.length + 1)
    (hl : st.lineMap = specEntriesFrom 1 T) :
    (mergeFile st filename content).merged =
      specContent (T ++ specFileLines filename content) ∧
    (mergeFile st filename content).current =
      (T ++ specFileLines filename content).length + 1 ∧
    (mergeFile st filename content).lineMap =
      specEntriesFrom 1 (T ++ specFileLines filename content) := by
  have hsplit : splitNl content = keptLines content ++ [[]] :=
    splitNl_of_good content hgood
  simp only [mergeFile]
  rw [hsplit]
  have hlen2 : (keptLines content ++ [[]]).length =
      0 + (keptLines content).length + 1 := by simp
  rw [hlen2]
  rw [writeLines_spec filename (keptLines content) 0]
  refine ⟨?_, ?_, ?_⟩
  · rw [hm, specContent_append]
    unfold specFileLines
    rw [specContent_append, specContent_append, specContent_tagLines]
    simp [specContent, List.append_assoc]
  · rw [hc]
    unfold specFileLines
    simp [tagLines_length]
    omega
  · rw [hl, hc, specEntriesFrom_append]
    unfold specFileLines
    rw [specEntriesFrom_append, specEntriesFrom_append]
    have hban : ∀ p : Nat, specEntriesFrom p
        [((none : Option SourceLine), bannerBar),
         (none, bannerFrom filename), (none, bannerBar)] = [] := fun p => rfl
    have hemp : ∀ p : Nat, specEntriesFrom p
        [((none : Option SourceLine), ([] : List Char)),
         (none, ([] : List Char))] = [] := fun p => rfl
    rw [hban, hemp]
    simp only [List.nil_append, List.append_nil, List.length_cons,
      List.length_nil, Nat.zero_add]
    have hidx : T.length + 1 + 1 + 1 + 1 = 1 + T.length + (1 + 1 + 1) := by
      omega
    rw [hidx]

theorem mergeFold_spec :
    ∀ (files : List (String × List Char)) (st : MergeState)
      (T : List (Option SourceLine × List Char)),
    (∀ fc ∈ files, fc.2 = [] ∨ fc.2.getLast? = some '\n') →
    st.merged = specContent T → st.current = T.length + 1 →
    st.lineMap = specEntriesFrom 1 T →
    (files.foldl (fun s fc => mergeFile s fc.1 fc.2) st).merged =
      specContent (T ++ specLines files) ∧
    (files.foldl (fun s fc => mergeFile s fc.1 fc.2) st).current =
      (T ++ specLines files).length + 1 ∧
    (files.foldl (fun s fc => mergeFile s fc.1 fc.2) st).lineMap =
      specEntriesFrom 1 (T ++ specLines files) := by
  intro files
  induction files with
  | nil =>
      intro st T _ hm hc hl
      simp only [List.foldl_nil, specLines, List.append_nil]
      exact ⟨hm, hc, hl⟩
  | cons fc files' ih =>
      intro st T hgood hm hc hl
      obtain ⟨hm', hc', hl'⟩ := mergeFile_spec st fc.1 fc.2 T
        (hgood fc (List.mem_cons_self _ _)) hm hc hl
      have hrec := ih (mergeFile st fc.1 fc.2) (T ++ specFileLines fc.1 fc.2)
        (fun fc' h => hgood fc' (List.mem_cons_of_mem _ h)) hm' hc' hl'
      simpa [specLines, List.append_assoc] using hrec

theorem mem_keptLines_no_nl (content : List Char) (p : List Char)
    (hp : p ∈ keptLines content) : '\n' ∉ p :=
  mem_splitNl_no_nl content p ((List.dropLast_sublist _).subset hp)

theorem mem_specLines_no_nl :
    ∀ files : List (String × List Char),
    (∀ fc ∈ files, '\n' ∉ fc.1.data) →
    ∀ tl ∈ specLines files, '\n' ∉ tl.2 := by
  intro files
  induction files with
  | nil => intro _ tl htl; simp [specLines] at htl
  | cons fc files' ih =>
      intro hfn tl htl
      simp only [specLines, List.mem_append] at htl
      rcases htl with htl | htl
      · unfold specFileLines at htl
        simp only [List.mem_append, List.mem_cons, List.not_mem_nil,
          or_false] at htl
        rcases htl with (h3 | htag) | h2
        · rcases h3 with rfl | rfl | rfl
          · decide
          · show '\n' ∉ bannerFrom fc.1
            unfold bannerFrom
            rw [String.data_append, List.mem_append]
            rintro (h | h)
            · exact absurd h (by decide)
            · exact hfn fc (List.mem_cons_self _ _) h
          · decide
        · exact mem_keptLines_no_nl fc.2 tl.2 (tagLines_mem fc.1 _ 1 tl htag)
        · rcases h2 with rfl | rfl <;> simp
      · exact ih (fun fc' h => hfn fc' (List.mem_cons_of_mem _ h)) tl htl

-- ---------- C8 ----------

/-- C8 fails on the code: when a file's content does not end in a newline
(file `A.cham` with content `"a"`), the merger's line counter advances by
one more than the physical lines written, so every later file's map
entries are shifted.  Concretely, with files `A.cham = "a"` and
`B.cham = "x\ny\n"`, physical merged line 9 is `"x"` — line 1 of `B.cham`
— but has no `LineMap` entry, while physical merged line 10 is `"y"` —
line 2 of `B.cham` — and `LineMap` maps it to `(B.cham, 1)`, the wrong
original line. -/
theorem merge_provenance_cex :
    ((Merge ["A.cham", "B.cham"] ["a".data, "x\ny\n".data]).map fun res =>
      ((splitNl res.Content).getD 8 [],
       (splitNl res.Content).getD 9 [],
       res.LineMap.lookup 9,
       res.LineMap.lookup 10)) =
      .ok ("x".data, "y".data, none, some ⟨"B.cham", 1⟩) ∧
    (splitNl "x\ny\n".data).getD 0 [] = "x".data ∧
    (splitNl "x\ny\n".data).getD 1 [] = "y".data :=
  ⟨rfl, rfl, rfl⟩

/-- C8 amended: provided every input filename is newline-free and every
input content is empty or ends in a newline, `Merge` refines the
spec-side provenance construction exactly: the merged text is the
concatenation of the tagged lines (three banner lines per file, the
file's own lines, two blank separator lines, each newline-terminated);
physically splitting the merged text yields those lines in order; and
`LineMap` is precisely the map sending each content line's 1-based merged
position to its `(file, original 1-based line)`, with banner and
separator lines absent.  In particular a line contributed by file `B`
maps to `B` with its correct original line number. -/
theorem merge_matches_spec_provenance (filenames : List String)
    (contents : List (List Char))
    (hlen : filenames.length = contents.length)
    (hne : filenames.length ≠ 0)
    (hnl : ∀ c ∈ contents, c = [] ∨ c.getLast? = some '\n')
    (hfn : ∀ f ∈ filenames, '\n' ∉ f.data) :
    ∃ res, Merge filenames contents = .ok res ∧
      res.Content = specContent (specLines (filenames.zip contents)) ∧
      splitNl res.Content =
        (specLines (filenames.zip contents)).map Prod.snd ++ [[]] ∧
      res.LineMap = specEntries (specLines (filenames.zip contents)) := by
  have hgood : ∀ fc ∈ filenames.zip contents,
      fc.2 = [] ∨ fc.2.getLast? = some '\n' := by
    intro fc hfc
    exact hnl fc.2 (List.of_mem_zip hfc).2
  have hfn' : ∀ fc ∈ filenames.zip contents, '\n' ∉ fc.1.data := by
    intro fc hfc
    exact hfn fc.1 (List.of_mem_zip hfc).1
  obtain ⟨hm, _, hlm⟩ := mergeFold_spec (filenames.zip contents)
    ⟨[], [], 1⟩ [] hgood rfl rfl rfl
  simp only [List.nil_append] at hm hlm
  have hif1 : ¬ (filenames.length ≠ contents.length) := by simp [hlen]
  refine ⟨⟨(( filenames.zip contents).foldl
      (fun s fc => mergeFile s fc.1 fc.2) ⟨[], [], 1⟩).merged,
    (((filenames.zip contents)).foldl
      (fun s fc => mergeFile s fc.1 fc.2) ⟨[], [], 1⟩).lineMap⟩,
    ?_, hm, ?_, hlm⟩
  · simp only [Merge, if_neg hif1, if_neg hne]
  · rw [hm]
    exact splitNl_specContent _ (mem_specLines_no_nl _ hfn')

theorem merge_matches_spec_provenance_witness :
    ∃ res, Merge ["A.cham", "B.cham"] ["a\n".data, "x\ny\n".data] = .ok res ∧
      res.Content = specContent (specLines
        (["A.cham", "B.cham"].zip ["a\n".data, "x\ny\n".data])) ∧
      splitNl res.Content = (specLines
        (["A.cham", "B.cham"].zip ["a\n".data, "x\ny\n".data])).map
          Prod.snd ++ [[]] ∧
      res.LineMap = specEntries (specLines
        (["A.cham", "B.cham"].zip ["a\n".data, "x\ny\n".data])) :=
  merge_matches_spec_provenance ["A.cham", "B.cham"]
    ["a\n".data, "x\ny\n".data] (by decide) (by decide) (by decide) (by decide)

end Chameleon
